import Mathlib

/-!
# ResourceCompiler: a shallow embedding of `src/main.cpp`

The program reads a manifest, embeds every leaf file it lists as a C byte
array, recurses into nested manifests and writes one `.c`/`.h` pair per
manifest.  The embedding below follows `main.cpp` function by function.

Conventions of the model.

* `std::string` is `String`; the bytes of a file are a `List Byte`.  Text that
  is written to a file is stored as its UTF-8 bytes.
* The file system is a function from path text to file contents.  A path names
  a file by its text: symbolic links and directories as directory entries are
  outside the model.
* `std::filesystem` and `nlohmann::json` are libraries, not code of this
  repository.  Their operations are fields of `Env`; `posix` further down is a
  concrete instance for absolute POSIX paths.
* Plain `char` is signed or unsigned depending on the ABI (`Env.charIsSigned`);
  `unsigned int` has 32 bits.
* The loop counters `int i` of `ProcessFileContent` and of
  `LoadResourceDataFromJSON` have 32 bits and are compared with a `size_t`
  bound.  Where `++i` would pass `INT_MAX` the behaviour of the program is
  undefined; the model stops the run there with `Error.int_overflow`.
* Exceptions are the `failed` status; a recursion that never returns is the
  `outOfFuel` status for every amount of fuel.
-/

namespace ResourceCompiler

/-! ## Data model (`main.cpp` lines 11-25) -/

/-- One byte of a file. -/
abbrev Byte := Fin 256

/-- The struct `ResourceContent`: one item of a manifest's content list. -/
structure ResourceContent where
  _path : String
  _name : String
  _namespace : String
deriving DecidableEq, Repr

/-- The struct `Resource`: one manifest node. -/
structure Resource where
  _name : String
  _namespace : String
  _dependencies : List String
  _content : List ResourceContent
  _relativePath : String
deriving DecidableEq, Repr

/-- The typed fields `LoadResourceDataFromJSON` takes out of a parsed manifest. -/
structure ManifestJson where
  name : String
  nspace : String
  dependencies : List String
  content : List ResourceContent
deriving DecidableEq, Repr

/-- The file system: the bytes stored under a path, `none` when no file is there. -/
abbrev Files := String → Option (List Byte)

/-- The exceptions the program can end with, and the one point where its
behaviour is undefined. -/
inductive Error where
  /-- The `fs::filesystem_error` thrown by `ProcessFileContent`, with its message. -/
  | filesystem_error (what : String)
  /-- An exception of `json::parse` or of a field conversion, for the manifest read from `path`. -/
  | json_exception (path : String)
  /-- The error of `fs::recursive_directory_iterator` on a path that is no directory. -/
  | directory_error (path : String)
  /-- No exception: the counter `int i` of a loop that runs up to a `size_t`
  bound (lines 207, 251 and 256) was incremented at the value `INT_MAX`.  The
  language gives the program no meaning from there on. -/
  | int_overflow
deriving DecidableEq, Repr

/-- How a call ends: it returns, it throws or meets the undefined increment
(`failed`), or the model ran out of fuel. -/
inductive Status where
  | done
  | failed (e : Error)
  | outOfFuel
deriving DecidableEq, Repr

/-- What a run does that can be observed from outside, in order: a manifest is
loaded (the line `Resource JSON: <path>`), or a file is opened for output, `text`
is streamed to it and it is closed (the line `Out: <path>` follows).  The file
system changes at a write only when the stream opened, see `writeFile`. -/
inductive Event where
  | load (jsonPath : String)
  | write (path : String) (text : String)
deriving DecidableEq, Repr

/-- The libraries and the platform the program runs on, and its two globals. -/
structure Env where
  /-- Plain `char` is a signed type. -/
  charIsSigned : Bool
  /-- The operator `/` of `fs::path`. -/
  append : String → String → String
  /-- The member `parent_path`. -/
  parent_path : String → String
  /-- The member `extension`. -/
  extension : String → String
  /-- The operator `==` of `fs::path`. -/
  pathEq : String → String → Bool
  /-- The function `fs::relative`. -/
  relative : String → String → String
  /-- The path `p` is an entry `fs::recursive_directory_iterator root` visits. -/
  isUnder : String → String → Bool
  /-- The function `fs::is_directory`. -/
  is_directory : String → Bool
  /-- The call `ofstream::open` on the path succeeds. -/
  canOpen : String → Bool
  /-- The text parses as JSON and has the fields the loader asks for. -/
  parse : List Byte → Option ManifestJson
  /-- The global `resourceDirPath`. -/
  resourceDirPath : String
  /-- The global `resourceOutDirPath`. -/
  resourceOutDirPath : String

/-! ## `ProcessFileContent` (`main.cpp` lines 189-222) -/

/-- The conversion `(unsigned int)data[i]` of a `char` that holds the byte `b`. -/
def charToUnsignedInt (charIsSigned : Bool) (b : Byte) : Nat :=
  let c : Int := if charIsSigned && decide (128 ≤ b.val) then (b.val : Int) - 256 else (b.val : Int)
  (c % 4294967296).toNat

/-- The largest value of a 32-bit `int`. -/
def INT_MAX : Nat := 2147483647

/-- The loop `for (int i = 0; i < length; ++i)` of lines 207-210, from the
counter value `i` on; the list holds the bytes `data[i]`, `data[i+1]`, ..., so the
test `i < length` holds exactly when the list is not empty.  One pass streams
the byte as a number and a comma and then increments `i`; the result is `none`
when that increment is made at `INT_MAX`. -/
def emitBytes (charIsSigned : Bool) : List Byte → Nat → String → Option String
  | [], _, outString => some outString
  | b :: rest, i, outString =>
    let outString := outString ++ Nat.repr (charToUnsignedInt charIsSigned b) ++ ","
    if i + 1 ≤ INT_MAX then emitBytes charIsSigned rest (i + 1) outString
    else none

/-- The function `ProcessFileContent`: the source fragment it returns and the
header after the two extern declarations were added to it. -/
def ProcessFileContent (E : Env) (files : Files) (sourceFile name header : String) :
    Except Error (String × String) :=
  match files sourceFile with
  | none =>
    .error (.filesystem_error
      ("ERROR: No file found at address: " ++ sourceFile ++ "\n For name " ++ name))
  | some data =>
    let outString := "const char " ++ name ++ "[] = \x7b\n"
    match emitBytes E.charIsSigned data 0 outString with
    | none => .error .int_overflow
    | some outString =>
      let outString := outString ++ "\n\x7d;\n"
      let outString := outString ++ "const size_t " ++ name ++ "_len = sizeof(" ++ name ++ ");\n"
      let headerString := "\nextern \"C\" const char " ++ name ++ "[];\n"
      let headerString := headerString ++ "extern \"C\" const size_t " ++ name ++ "_len;\n"
      .ok (outString, header ++ headerString)

/-! ## `LoadResourceDataFromJSON` (`main.cpp` lines 224-265) -/

/-- The UTF-8 bytes of a text, as a stream writes them to a file. -/
def utf8 (s : String) : List Byte :=
  s.data.flatMap (fun c => (String.utf8EncodeChar c).map (fun u => Fin.ofNat u.toNat))

/-- The function `ReadAsciiFileToString`: a stream that failed to open yields no bytes. -/
def ReadAsciiFileToString (files : Files) (filePath : String) : List Byte :=
  (files filePath).getD []

/-- The path `LoadResourceDataFromJSON` reads: `.json` is added unless it is the extension. -/
def jsonPathOf (E : Env) (jsonPath : String) : String :=
  if E.pathEq (E.extension jsonPath) ".json" then jsonPath else jsonPath ++ ".json"

/-- The loops `for (int i = 0; i < array.size(); ++i)` of lines 251-254 and
256-263, from the counter value `i` on; the list holds the elements `array[i]`,
`array[i+1]`, ...  One pass appends the element to the vector and then
increments `i`; the result is `none` when that increment is made at `INT_MAX`. -/
def copyArray {α : Type} : List α → Nat → List α → Option (List α)
  | [], _, out => some out
  | x :: rest, i, out =>
    if i + 1 ≤ INT_MAX then copyArray rest (i + 1) (out ++ [x]) else none

/-- The function `LoadResourceDataFromJSON`: the line it prints and the resource
it returns, or the exception of the JSON library. -/
def LoadResourceDataFromJSON (E : Env) (files : Files) (jsonPath : String) :
    Event × Except Error Resource :=
  let jsonPath := jsonPathOf E jsonPath
  let relativeSourcePath := E.relative jsonPath E.resourceDirPath
  let jsonString := ReadAsciiFileToString files jsonPath
  match E.parse jsonString with
  | none => (.load jsonPath, .error (.json_exception jsonPath))
  | some jsonObj =>
    match copyArray jsonObj.dependencies 0 [] with
    | none => (.load jsonPath, .error .int_overflow)
    | some dependencies =>
      match copyArray jsonObj.content 0 [] with
      | none => (.load jsonPath, .error .int_overflow)
      | some content =>
        (.load jsonPath, .ok
          { _relativePath := relativeSourcePath
            _name := jsonObj.name
            _namespace := jsonObj.nspace
            _dependencies := dependencies
            _content := content })

/-! ## `CleanupDirectory` (`main.cpp` lines 93-103) -/

/-- The test of line 98 on the extension of a directory entry. -/
def isGeneratedExtension (E : Env) (ext : String) : Bool :=
  E.pathEq ext ".c" || E.pathEq ext ".h" || E.pathEq ext ".cpp" || E.pathEq ext ".hpp"

/-- The function `CleanupDirectory`: every entry under `path` with a generated
extension is removed; the iterator throws when `path` is no directory. -/
def CleanupDirectory (E : Env) (path : String) (files : Files) : Except Error Files :=
  if E.is_directory path then
    .ok (fun p => if E.isUnder path p && isGeneratedExtension E (E.extension p) then none
                  else files p)
  else .error (.directory_error path)

/-! ## `ProcessResource` (`main.cpp` lines 105-187) -/

/-- The member `c_str` read through `%s`: the text up to the first NUL character. -/
def c_str (s : String) : String :=
  ⟨s.data.takeWhile (fun c => c != Char.ofNat 0)⟩

/-- The loop of lines 113-116 over the dependency list.  `string_format` is taken
as the text `snprintf` produces from the pattern and the argument; the exception
it throws when `snprintf` reports an error (a line that does not fit an `int`)
is not part of the model. -/
def renderDependencies (deps : List String) : String :=
  deps.foldl (fun dependencies item => dependencies ++ ("#include <" ++ c_str item ++ ">\n")) ""

/-- The three strings the content loop fills. -/
structure Acc where
  internalDependencies : String
  data : String
  headerData : String
deriving DecidableEq, Repr

/-- Opening a file for output, streaming `text` into it and closing it.  Nothing
happens to the file system when the stream fails to open. -/
def writeFile (E : Env) (files : Files) (path text : String) : Files :=
  if E.canOpen path then fun p => if p = path then some (utf8 text) else files p
  else files

/-- The local `resourceJsonDirectory` of line 110. -/
def resourceJsonDirectory (E : Env) (resource : Resource) : String :=
  E.parent_path (E.append E.resourceDirPath resource._relativePath)

/-- The local `outDirectory` of line 111. -/
def outDirectory (E : Env) (resource : Resource) : String :=
  E.parent_path (E.append E.resourceOutDirPath resource._relativePath)

/-- The local `itemPath` of line 125. -/
def itemPathOf (E : Env) (resource : Resource) (item : ResourceContent) : String :=
  E.append (resourceJsonDirectory E resource) item._path

/-- The test of line 126: the entry is the manifest itself. -/
def isSelfReference (E : Env) (resource : Resource) (item : ResourceContent) : Bool :=
  E.pathEq (itemPathOf E resource item) (E.append E.resourceDirPath resource._relativePath)

/-- The test of line 127: the entry is a nested manifest. -/
def isManifestEntry (E : Env) (resource : Resource) (item : ResourceContent) : Bool :=
  E.pathEq (E.extension (itemPathOf E resource item)) ".rc"

/-- The include line of lines 132-133 for a nested manifest that was processed. -/
def internalInclude (E : Env) (subresource : Resource) : String :=
  "#include \"" ++
    c_str (E.append (E.parent_path subresource._relativePath) (subresource._name ++ ".h")) ++
    "\"\n"

/-- Lines 137-143: the header of a leaf entry before `ProcessFileContent` runs. -/
def headerOpen (item : ResourceContent) : String :=
  let header := ""
  if item._namespace ≠ "" then
    let header := header ++ "\n#if __cplusplus\n"
    let header := header ++ ("namespace " ++ item._namespace ++ " \x7b\n")
    header ++ "#endif\n"
  else header

/-- Lines 145-150: the header of a leaf entry after `ProcessFileContent` ran. -/
def headerClose (item : ResourceContent) (header : String) : String :=
  if item._namespace ≠ "" then
    let header := header ++ "\n#if __cplusplus\n"
    let header := header ++ "\x7d;\n"
    header ++ "#endif\n"
  else header

/-- One pass through the body of the loop of lines 123-153.  `recur` is the
recursive call of `ProcessResource` on a nested manifest. -/
def contentStep (E : Env) (recur : Resource → Files → Files × List Event × Status)
    (resource : Resource) (item : ResourceContent) (acc : Acc) (files : Files) :
    Acc × Files × List Event × Status :=
  let itemPath := itemPathOf E resource item
  if isSelfReference E resource item then (acc, files, [], .done)
  else if isManifestEntry E resource item then
    match LoadResourceDataFromJSON E files itemPath with
    | (ev, .error e) => (acc, files, [ev], .failed e)
    | (ev, .ok subresource) =>
      match recur subresource files with
      | (files1, evs, .done) =>
        ({ acc with internalDependencies :=
              acc.internalDependencies ++ internalInclude E subresource },
          files1, ev :: evs, .done)
      | (files1, evs, st) => (acc, files1, ev :: evs, st)
  else
    let header := headerOpen item
    match ProcessFileContent E files itemPath item._name header with
    | .error e => (acc, files, [], .failed e)
    | .ok (out, header) =>
      let header := headerClose item header
      ({ acc with data := acc.data ++ out, headerData := acc.headerData ++ header },
        files, [], .done)

/-- The loop of lines 123-153: the entries in order, until one of them does not return. -/
def contentLoop (E : Env) (recur : Resource → Files → Files × List Event × Status)
    (resource : Resource) : List ResourceContent → Acc → Files →
    Acc × Files × List Event × Status
  | [], acc, files => (acc, files, [], .done)
  | item :: rest, acc, files =>
    match contentStep E recur resource item acc files with
    | (acc1, files1, evs1, .done) =>
      match contentLoop E recur resource rest acc1 files1 with
      | (acc2, files2, evs2, st) => (acc2, files2, evs1 ++ evs2, st)
    | r => r

/-- The path of the generated source file, line 156. -/
def sourcePath (E : Env) (resource : Resource) : String :=
  E.append (outDirectory E resource) (resource._name ++ ".c")

/-- The path of the generated header file, line 165. -/
def headerPath (E : Env) (resource : Resource) : String :=
  E.append (outDirectory E resource) (resource._name ++ ".h")

/-- The text streamed into the source file, lines 158-159. -/
def sourceText (resource : Resource) (acc : Acc) : String :=
  renderDependencies resource._dependencies ++ acc.data

/-- The text streamed into the header file, lines 167-182. -/
def headerText (resource : Resource) (acc : Acc) : String :=
  let curNamespace := resource._namespace
  let out := "// Auto-generated resource file. Do not edit.\n\n#pragma once\n\n"
  let out := out ++ renderDependencies resource._dependencies
  let out := out ++ acc.internalDependencies
  let out :=
    if curNamespace ≠ "" then
      out ++ "#if __cplusplus\n" ++ ("namespace " ++ curNamespace ++ "\n\x7b\n") ++ "#endif\n"
    else out
  let out := out ++ acc.headerData
  if curNamespace ≠ "" then
    out ++ "#if __cplusplus\n" ++ "\x7d;\n" ++ "#endif\n"
  else out

/-- The function `ProcessResource`.  One unit of fuel is used for every level of
nesting; the result is the file system it leaves, the events in order and how the
call ended.  The flag `isRootResource` is not read by the code. -/
def ProcessResource (E : Env) : Nat → Resource → Bool → Files → Files × List Event × Status
  | 0, _, _, files => (files, [], .outOfFuel)
  | fuel + 1, resource, _, files =>
    match contentLoop E (fun sub fs => ProcessResource E fuel sub false fs) resource
        resource._content ⟨"", "", ""⟩ files with
    | (acc, files1, evs, .done) =>
      let files2 := writeFile E files1 (sourcePath E resource) (sourceText resource acc)
      let files3 := writeFile E files2 (headerPath E resource) (headerText resource acc)
      (files3,
        evs ++ [.write (sourcePath E resource) (sourceText resource acc),
                .write (headerPath E resource) (headerText resource acc)],
        .done)
    | (_, files1, evs, st) => (files1, evs, st)

/-! ## `main`, lines 79-85 -/

/-- The three calls at the end of `main`: clean the output root, load the root
manifest, process it. -/
def mainRun (E : Env) (fuel : Nat) (inputResourceJsonPath : String) (files : Files) :
    Files × List Event × Status :=
  match CleanupDirectory E E.resourceOutDirPath files with
  | .error e => (files, [], .failed e)
  | .ok files1 =>
    match LoadResourceDataFromJSON E files1 inputResourceJsonPath with
    | (ev, .error e) => (files1, [ev], .failed e)
    | (ev, .ok mainResource) =>
      match ProcessResource E fuel mainResource true files1 with
      | (files2, evs, st) => (files2, ev :: evs, st)

/-! ## A concrete library: absolute POSIX paths

The functions below follow the C++17 rules of `std::filesystem::path` in the
generic format for paths without a root name.  `relative` is the lexical
relation of the two paths after `.` and `..` were resolved, which is what
`fs::relative` computes for absolute paths when no symbolic link is involved. -/

/-- The file names of a path, in order: the text between the separators. -/
def splitNames : List Char → List Char → List (List Char)
  | [], cur => if cur = [] then [] else [cur.reverse]
  | c :: cs, cur =>
    if c = '/' then
      if cur = [] then splitNames cs [] else cur.reverse :: splitNames cs []
    else splitNames cs (c :: cur)

/-- The elements a path iterates over: the root directory, the file names, and
an empty element after a trailing separator. -/
def pathElements (p : String) : List (List Char) :=
  let names := splitNames p.data []
  (if p.data.head? = some '/' then [['/']] else []) ++ names ++
    (if p.data.getLast? = some '/' ∧ names ≠ [] then [[]] else [])

/-- The operator `==`: the two paths have the same elements. -/
def posixPathEq (p q : String) : Bool :=
  decide (pathElements p = pathElements q)

/-- The operator `/`: an absolute right side replaces the left side; otherwise a
separator is put between the two unless the left side is empty or ends in one. -/
def posixAppend (p q : String) : String :=
  if q.data.head? = some '/' then q
  else if p.data = [] ∨ p.data.getLast? = some '/' then p ++ q
  else p ++ "/" ++ q

/-- The member `parent_path`: the path without its last element. -/
def posixParentPath (p : String) : String :=
  if '/' ∈ p.data then
    let r := (p.data.reverse.dropWhile (fun c => c != '/')).dropWhile (fun c => c == '/')
    if r = [] then "/" else ⟨r.reverse⟩
  else ""

/-- The member `filename`: the text after the last separator. -/
def posixFilename (p : String) : List Char :=
  (p.data.reverse.takeWhile (fun c => c != '/')).reverse

/-- The member `extension`: from the last period of the file name on; empty for
`.` and `..`, for a name without a period and for a name whose only period is
its first character. -/
def posixExtension (p : String) : String :=
  let f := posixFilename p
  let afterDot := (f.reverse.takeWhile (fun c => c != '.')).reverse
  if f = ['.'] ∨ f = ['.', '.'] then ""
  else if '.' ∈ f then
    if afterDot.length + 1 = f.length then "" else ⟨'.' :: afterDot⟩
  else ""

/-- The file names of a path after `.` and `..` were resolved. -/
def normalizeNames : List (List Char) → List (List Char) → List (List Char)
  | [], st => st.reverse
  | n :: ns, st =>
    if n = ['.'] then normalizeNames ns st
    else if n = ['.', '.'] then normalizeNames ns st.tail
    else normalizeNames ns (n :: st)

/-- Two lists without their common beginning. -/
def stripCommon : List (List Char) → List (List Char) → List (List Char) × List (List Char)
  | a :: as, b :: bs => if a = b then stripCommon as bs else (a :: as, b :: bs)
  | as, bs => (as, bs)

/-- The function `fs::relative` on two absolute paths. -/
def posixRelative (p base : String) : String :=
  let a := normalizeNames (splitNames p.data []) []
  let b := normalizeNames (splitNames base.data []) []
  let r := stripCommon a b
  let parts := List.replicate r.2.length ['.', '.'] ++ r.1
  if parts = [] then "." else ⟨List.intercalate ['/'] parts⟩

/-- The entries `fs::recursive_directory_iterator root` visits: the paths made of
the names of `root` and at least one more name, none of them `.` or `..`. -/
def posixIsUnder (root p : String) : Bool :=
  let r := splitNames root.data []
  let n := splitNames p.data []
  decide (r.isPrefixOf n = true ∧ r.length < n.length ∧
    ['.'] ∉ n.drop r.length ∧ ['.', '.'] ∉ n.drop r.length)

/-- The manifest a JSON text stands for, looked up in a table of the texts in use. -/
def parseTable (table : List (String × ManifestJson)) (bytes : List Byte) : Option ManifestJson :=
  (table.find? (fun e => decide (utf8 e.1 = bytes))).map (fun e => e.2)

/-- The library on a POSIX system with the directories `dirs`, the manifests of
`table` and the two roots. -/
def posix (charIsSigned : Bool) (dirs : List String) (table : List (String × ManifestJson))
    (resourceDirPath resourceOutDirPath : String) : Env where
  charIsSigned := charIsSigned
  append := posixAppend
  parent_path := posixParentPath
  extension := posixExtension
  pathEq := posixPathEq
  relative := posixRelative
  isUnder := posixIsUnder
  is_directory := fun p => dirs.any (fun d => posixPathEq d p)
  canOpen := fun p => dirs.any (fun d => posixPathEq d (posixParentPath p))
  parse := parseTable table
  resourceDirPath := resourceDirPath
  resourceOutDirPath := resourceOutDirPath

/-! ## Notions the statements use -/

/-- The texts of a list one after the other. -/
def concatAll : List String → String
  | [] => ""
  | s :: ss => s ++ concatAll ss

/-- The text `sub` occurs in the text `s`. -/
def containsText (s sub : String) : Bool :=
  s.data.tails.any (fun t => sub.data.isPrefixOf t)

/-- The banner and the guard every header starts with, line 167. -/
def headerBanner : String :=
  "// Auto-generated resource file. Do not edit.\n\n#pragma once\n\n"

/-! ## The end-to-end example: `Pack.rc.json` with one leaf `a.bin` -/

/-- The manifest of the example as JSON text. -/
def packJson : String :=
  "\x7b\"name\":\"Pack\",\"namespace\":\"\",\"dependencies\":[],\"content\":[\x7b\"path\":\"a.bin\",\"name\":\"kA\"\x7d]\x7d"

/-- The tool is run in `/in`, which is also the output root. -/
def packEnv : Env :=
  posix true ["/in"] [(packJson, ⟨"Pack", "", [], [⟨"a.bin", "kA", ""⟩]⟩)] "/in" "/in"

/-- The directory `/in` holds the manifest and the file `a.bin` with the bytes 1, 2, 3. -/
def packFiles : Files := fun p =>
  if p = "/in/Pack.rc.json" then some (utf8 packJson)
  else if p = "/in/a.bin" then some [1, 2, 3]
  else none

/-- The entry is a leaf: neither the manifest itself nor a nested manifest. -/
def isLeafEntry (E : Env) (resource : Resource) (item : ResourceContent) : Bool :=
  !isSelfReference E resource item && !isManifestEntry E resource item

/-- The entry is a nested manifest that the loop loads. -/
def isNestedEntry (E : Env) (resource : Resource) (item : ResourceContent) : Bool :=
  !isSelfReference E resource item && isManifestEntry E resource item

/-- The recursive call `ProcessResource(subresource, false)` with the fuel that is left. -/
def recurWith (E : Env) (fuel : Nat) : Resource → Files → Files × List Event × Status :=
  fun sub fs => ProcessResource E fuel sub false fs

/-- The accumulators at the start of the loop. -/
def emptyAcc : Acc := ⟨"", "", ""⟩


/-- The two extern declarations of a symbol name. -/
def externDeclarations (name : String) : String :=
  "\nextern \"C\" const char " ++ name ++ "[];\n" ++
    "extern \"C\" const size_t " ++ name ++ "_len;\n"

/-- The array literal and the length line of a symbol name for the bytes `data`. -/
def arrayLiteral (charIsSigned : Bool) (name : String) (data : List Byte) : String :=
  "const char " ++ name ++ "[] = \x7b\n" ++
    concatAll (data.map (fun b => Nat.repr (charToUnsignedInt charIsSigned b) ++ ",")) ++
    "\n\x7d;\n" ++ "const size_t " ++ name ++ "_len = sizeof(" ++ name ++ ");\n"

/-- The header fragment of a leaf entry as the claim words it: the two extern
declarations, and around them, when the entry has a namespace, one guarded
opener `namespace NS {` and one guarded closer. -/
def entryHeaderFragment (item : ResourceContent) : String :=
  if item._namespace = "" then externDeclarations item._name
  else
    "\n#if __cplusplus\n" ++ ("namespace " ++ item._namespace ++ " \x7b\n") ++ "#endif\n" ++
      externDeclarations item._name ++
      "\n#if __cplusplus\n" ++ "\x7d;\n" ++ "#endif\n"

/-- The header body as the claim words it: as it is without a namespace, and
with one guarded opener before it and one guarded closer after it otherwise. -/
def wrapNamespace (nspace body : String) : String :=
  if nspace = "" then body
  else
    "#if __cplusplus\n" ++ ("namespace " ++ nspace ++ "\n\x7b\n") ++ "#endif\n" ++
      body ++
      "#if __cplusplus\n" ++ "\x7d;\n" ++ "#endif\n"

/-! ## The nesting example: `P.rc.json` lists `A.rc` and `B.rc` -/

/-- The manifest `A`: one leaf. -/
def nestJsonA : String :=
  "\x7b\"name\":\"A\",\"namespace\":\"\",\"dependencies\":[],\"content\":[\x7b\"path\":\"a.bin\",\"name\":\"kA\"\x7d]\x7d"

/-- The manifest `B`: no content. -/
def nestJsonB : String :=
  "\x7b\"name\":\"B\",\"namespace\":\"\",\"dependencies\":[],\"content\":[]\x7d"

/-- The manifest `P`: the nested manifests `A.rc` and `B.rc`, in this order. -/
def nestJsonP : String :=
  "\x7b\"name\":\"P\",\"namespace\":\"\",\"dependencies\":[],\"content\":[\x7b\"path\":\"A.rc\",\"name\":\"a\"\x7d,\x7b\"path\":\"B.rc\",\"name\":\"b\"\x7d]\x7d"

/-- The tool is run in `/in`, which is also the output root. -/
def nestEnv : Env :=
  posix true ["/in"]
    [(nestJsonA, ⟨"A", "", [], [⟨"a.bin", "kA", ""⟩]⟩),
     (nestJsonB, ⟨"B", "", [], []⟩),
     (nestJsonP, ⟨"P", "", [], [⟨"A.rc", "a", ""⟩, ⟨"B.rc", "b", ""⟩]⟩)]
    "/in" "/in"

/-- The directory `/in` with the three manifests, the leaf `a.bin` and a file
`bad.rc.json` that is no JSON text. -/
def nestFiles : Files := fun p =>
  if p = "/in/P.rc.json" then some (utf8 nestJsonP)
  else if p = "/in/A.rc.json" then some (utf8 nestJsonA)
  else if p = "/in/B.rc.json" then some (utf8 nestJsonB)
  else if p = "/in/bad.rc.json" then some (utf8 "oops")
  else if p = "/in/a.bin" then some [1, 2, 3]
  else none

/-- The resource of `P.rc.json`. -/
def nestResourceP : Resource :=
  ⟨"P", "", [], [⟨"A.rc", "a", ""⟩, ⟨"B.rc", "b", ""⟩], "P.rc.json"⟩

/-- A manifest with the namespace `Outer`: the leaf `a.bin`, the nested manifest
`A.rc` and the leaf `b.bin` in the namespace `Inner`. -/
def namespaceResource : Resource :=
  ⟨"Pack", "Outer", ["stdio.h"],
    [⟨"a.bin", "kA", ""⟩, ⟨"A.rc", "a", ""⟩, ⟨"b.bin", "kB", "Inner"⟩], "Pack.rc.json"⟩

/-- The directory `/in` with the two leaf files and the manifest `A.rc.json`. -/
def namespaceFiles : Files := fun p =>
  if p = "/in/a.bin" then some [1, 2, 3]
  else if p = "/in/b.bin" then some [255]
  else if p = "/in/A.rc.json" then some (utf8 nestJsonA)
  else none

/-- The path is one `CleanupDirectory` removes on the output root. -/
def isCleaned (E : Env) (p : String) : Bool :=
  E.isUnder E.resourceOutDirPath p && isGeneratedExtension E (E.extension p)

/-- Every file written in the events is one `CleanupDirectory` removes on the output root. -/
def writesAreCleaned (E : Env) (evs : List Event) : Bool :=
  evs.all (fun ev =>
    match ev with
    | .write p _ => isCleaned E p
    | .load _ => true)

/-! ## The stale-output example: a nested manifest outside the output root -/

/-- The root manifest: the leaf `../ext/A.h` and then the nested manifest `../ext/A.rc`. -/
def staleJsonRoot : String :=
  "\x7b\"name\":\"Root\",\"namespace\":\"\",\"dependencies\":[],\"content\":[\x7b\"path\":\"../ext/A.h\",\"name\":\"kH\"\x7d,\x7b\"path\":\"../ext/A.rc\",\"name\":\"a\"\x7d]\x7d"

/-- The nested manifest `A`, without content. -/
def staleJsonA : String :=
  "\x7b\"name\":\"A\",\"namespace\":\"\",\"dependencies\":[],\"content\":[]\x7d"

/-- The tool is run in `/w/in`, which is also the output root; `/w/ext` is next to it. -/
def staleEnv : Env :=
  posix true ["/w/in", "/w/ext", "/w/in/../ext"]
    [(staleJsonRoot, ⟨"Root", "", [], [⟨"../ext/A.h", "kH", ""⟩, ⟨"../ext/A.rc", "a", ""⟩]⟩),
     (staleJsonA, ⟨"A", "", [], []⟩)]
    "/w/in" "/w/in"

/-- The two manifests and a file `A.h` with the single byte 7 in `/w/ext`, under
the paths by which the program reaches them. -/
def staleFiles : Files := fun p =>
  if p = "/w/in/Root.rc.json" then some (utf8 staleJsonRoot)
  else if p = "/w/in/../ext/A.rc.json" then some (utf8 staleJsonA)
  else if p = "/w/in/../ext/A.h" then some [7]
  else none

/-! ## The cycle example: `Pack.rc.json` lists `Pack.rc` -/

/-- The manifest `Pack`, whose only entry is the path `Pack.rc`. -/
def cycleJson : String :=
  "\x7b\"name\":\"Pack\",\"namespace\":\"\",\"dependencies\":[],\"content\":[\x7b\"path\":\"Pack.rc\",\"name\":\"self\"\x7d]\x7d"

/-- The tool is run in `/in`, which is also the output root. -/
def cycleEnv : Env :=
  posix true ["/in"] [(cycleJson, ⟨"Pack", "", [], [⟨"Pack.rc", "self", ""⟩]⟩)] "/in" "/in"

/-- The directory `/in` holds the manifest `Pack.rc.json` and nothing else. -/
def cycleFiles : Files := fun p =>
  if p = "/in/Pack.rc.json" then some (utf8 cycleJson) else none

/-- The resource of `Pack.rc.json`. -/
def cycleResource : Resource :=
  ⟨"Pack", "", [], [⟨"Pack.rc", "self", ""⟩], "Pack.rc.json"⟩

/-- Below `resource`, manifests are nested at most `depth` levels deep, as the
manifest files are stored in `files`: every nested entry either fails to load or
loads a resource below which the nesting is one level less deep. -/
def nestingWithin (E : Env) (files : Files) : Nat → Resource → Bool
  | 0, resource => resource._content.all (fun item => !isNestedEntry E resource item)
  | depth + 1, resource =>
    resource._content.all (fun item =>
      !isNestedEntry E resource item ||
        match (LoadResourceDataFromJSON E files (itemPathOf E resource item)).2 with
        | .error _ => true
        | .ok sub => nestingWithin E files depth sub)

/-! ## Lemmas on texts and decimal numbers -/

theorem concatAll_append (xs ys : List String) :
    concatAll (xs ++ ys) = concatAll xs ++ concatAll ys := by
  induction xs with
  | nil => simp [concatAll]
  | cons x xs ih => simp [concatAll, ih, String.append_assoc]

/-- While the counter stays within `int`, the loops of the loader copy the array. -/
theorem copyArray_eq {α : Type} (xs : List α) (i : Nat) (out : List α)
    (h : i + xs.length ≤ INT_MAX) : copyArray xs i out = some (out ++ xs) := by
  induction xs generalizing i out with
  | nil => simp [copyArray]
  | cons x rest ih =>
    have hlen : i + 1 + rest.length ≤ INT_MAX := by
      simp only [List.length_cons] at h
      omega
    have hi : i + 1 ≤ INT_MAX := by omega
    rw [copyArray]
    simp only [hi, if_true]
    rw [ih (i + 1) _ hlen]
    simp

/-- While the counter stays within `int`, the loop streams one token and one
comma per byte. -/
theorem emitBytes_eq (sgn : Bool) (data : List Byte) (i : Nat) (out : String)
    (h : i + data.length ≤ INT_MAX) :
    emitBytes sgn data i out =
      some (out ++ concatAll (data.map (fun b => Nat.repr (charToUnsignedInt sgn b) ++ ","))) := by
  induction data generalizing i out with
  | nil => simp [emitBytes, concatAll]
  | cons b bs ih =>
    have hlen : i + 1 + bs.length ≤ INT_MAX := by
      simp only [List.length_cons] at h
      omega
    have hi : i + 1 ≤ INT_MAX := by omega
    rw [emitBytes]
    simp only [hi, if_true]
    rw [ih (i + 1) _ hlen]
    simp [concatAll, String.append_assoc]

/-- On a file with more than `INT_MAX` bytes the counter is incremented at
`INT_MAX`. -/
theorem emitBytes_overflow (sgn : Bool) (data : List Byte) (i : Nat) (out : String)
    (hi : i ≤ INT_MAX) (h : INT_MAX < i + data.length) :
    emitBytes sgn data i out = none := by
  induction data generalizing i out with
  | nil =>
    simp only [List.length_nil] at h
    omega
  | cons b bs ih =>
    rw [emitBytes]
    by_cases hi1 : i + 1 ≤ INT_MAX
    · simp only [hi1, if_true]
      apply ih (i + 1) _ hi1
      simp only [List.length_cons] at h
      omega
    · simp only [hi1, if_false]

theorem digitChar_isDigit (n : Nat) (h : n < 10) : (Nat.digitChar n).isDigit = true := by
  interval_cases n <;> decide

theorem toDigitsCore_digits (fuel n : Nat) (ds : List Char)
    (hds : ∀ c ∈ ds, c.isDigit = true) :
    ∀ c ∈ Nat.toDigitsCore 10 fuel n ds, c.isDigit = true := by
  induction fuel generalizing n ds with
  | zero => simpa [Nat.toDigitsCore] using hds
  | succ f ih =>
    have hd : (Nat.digitChar (n % 10)).isDigit = true :=
      digitChar_isDigit _ (Nat.mod_lt _ (by decide))
    simp only [Nat.toDigitsCore]
    split
    · intro c hc
      rcases List.mem_cons.mp hc with rfl | hc
      · exact hd
      · exact hds c hc
    · apply ih
      intro c hc
      rcases List.mem_cons.mp hc with rfl | hc
      · exact hd
      · exact hds c hc

theorem toDigitsCore_ne_nil (fuel n : Nat) (ds : List Char) :
    Nat.toDigitsCore 10 (fuel + 1) n ds ≠ [] := by
  induction fuel generalizing n ds with
  | zero => simp [Nat.toDigitsCore]
  | succ f ih =>
    rw [Nat.toDigitsCore]
    split
    · simp
    · exact ih _ _

theorem repr_digits (n : Nat) : ∀ c ∈ (Nat.repr n).data, c.isDigit = true := by
  simpa [Nat.repr, Nat.toDigits, List.asString] using toDigitsCore_digits (n + 1) n [] (by simp)

theorem repr_ne_empty (n : Nat) : Nat.repr n ≠ "" := by
  intro h
  have := congrArg String.data h
  simp [Nat.repr, Nat.toDigits, List.asString] at this
  exact toDigitsCore_ne_nil n n [] this

theorem count_comma_token (t : String) (h : ∀ c ∈ t.data, c.isDigit = true) :
    t.data.count ',' = 0 := by
  rw [List.count_eq_zero]
  intro hc
  have := h _ hc
  revert this
  decide

theorem count_comma_tokens (tokens : List String)
    (h : ∀ t ∈ tokens, ∀ c ∈ t.data, c.isDigit = true) :
    (concatAll (tokens.map (fun t => t ++ ","))).data.count ',' = tokens.length := by
  induction tokens with
  | nil => simp [concatAll]
  | cons t ts ih =>
    have ht := count_comma_token t (h t (List.mem_cons_self _ _))
    have hts := ih (fun u hu => h u (List.mem_cons_of_mem _ hu))
    simp only [List.map_cons, concatAll, String.data_append, List.count_append,
      List.length_cons, ht, hts]
    simp
    omega

/-- Below 128, and for every byte where plain `char` is unsigned, the cast gives
the value of the byte. -/
theorem charToUnsignedInt_eq (sgn : Bool) (b : Byte) (h : sgn = false ∨ b.val < 128) :
    charToUnsignedInt sgn b = b.val := by
  have hb := b.isLt
  unfold charToUnsignedInt
  rcases h with h | h
  · subst h
    simp only [Bool.false_and, Bool.false_eq_true, if_false]
    omega
  · have : ¬ (128 ≤ b.val) := by omega
    simp only [this, decide_False, Bool.and_false, Bool.false_eq_true, if_false]
    omega

/-! ## The array literal of `ProcessFileContent` -/

/-- For a leaf file of `L ≤ INT_MAX` bytes the source fragment is the opening
line `const char <name>[] = {`, a newline, `L` tokens each followed by one
comma, a newline, `};` and the length line: every token is a non-empty run of
decimal digits, so there are exactly `L` commas between the braces. -/
theorem ProcessFileContent_token_count (E : Env) (files : Files)
    (sourceFile name header : String) (data : List Byte)
    (h : files sourceFile = some data) (hlen : data.length ≤ INT_MAX) :
    ∃ tokens : List String,
      tokens.length = data.length ∧
      (∀ t ∈ tokens, t ≠ "" ∧ ∀ c ∈ t.data, c.isDigit = true) ∧
      (concatAll (tokens.map (fun t => t ++ ","))).data.count ',' = data.length ∧
      ProcessFileContent E files sourceFile name header =
        .ok ("const char " ++ name ++ "[] = \x7b" ++ "\n" ++
              concatAll (tokens.map (fun t => t ++ ",")) ++ "\n" ++ "\x7d;\n" ++
              "const size_t " ++ name ++ "_len = sizeof(" ++ name ++ ");\n",
            header ++ ("\nextern \"C\" const char " ++ name ++ "[];\n" ++
              "extern \"C\" const size_t " ++ name ++ "_len;\n")) := by
  have hdig : ∀ t ∈ data.map (fun b => Nat.repr (charToUnsignedInt E.charIsSigned b)),
      t ≠ "" ∧ ∀ c ∈ t.data, c.isDigit = true := by
    intro t ht
    obtain ⟨b, -, rfl⟩ := List.mem_map.mp ht
    exact ⟨repr_ne_empty _, repr_digits _⟩
  refine ⟨data.map (fun b => Nat.repr (charToUnsignedInt E.charIsSigned b)),
    by simp, hdig, ?_, ?_⟩
  · rw [count_comma_tokens _ (fun t ht => (hdig t ht).2)]
    simp
  · simp only [ProcessFileContent, h, emitBytes_eq _ data 0 _ (by omega), List.map_map]
    simp [String.append_assoc, Function.comp_def]

/-- On a leaf file of more than `INT_MAX` bytes the loop counter is incremented
at `INT_MAX`: no array literal is defined. -/
theorem ProcessFileContent_overflow (E : Env) (files : Files)
    (sourceFile name header : String) (data : List Byte)
    (h : files sourceFile = some data) (hlen : INT_MAX < data.length) :
    ProcessFileContent E files sourceFile name header = .error .int_overflow := by
  simp only [ProcessFileContent, h,
    emitBytes_overflow E.charIsSigned data 0 _ (Nat.zero_le _) (by omega)]

/-- **C6, at the failing input.** For a leaf file of `2^31 + 1` bytes the call
does not return an array literal with one token per byte: the counter `int i`
of line 207 is incremented at `INT_MAX` while bytes are left, and the program
has no defined behaviour from there on. -/
theorem C6_int_counter_overflow :
    (List.replicate 2147483649 (0 : Byte)).length = 2147483649 ∧
    ProcessFileContent (posix true ["/in"] [] "/in" "/in")
        (fun p => if p = "/in/big.bin" then some (List.replicate 2147483649 0) else none)
        "/in/big.bin" "kBig" "" =
      .error .int_overflow := by
  refine ⟨List.length_replicate _ _, ?_⟩
  apply ProcessFileContent_overflow _ _ _ _ _ (List.replicate 2147483649 0) (if_pos rfl)
  rw [List.length_replicate]
  decide

/-- **C1, at the failing input.** Where plain `char` is signed, the byte `0x80`
is written as `4294967168`, not as `128`: the cast to `unsigned int` extends the
sign of the `char` first. -/
theorem C1_signed_char_byte_128 :
    ProcessFileContent (posix true ["/in"] [] "/in" "/in")
        (fun p => if p = "/in/a.bin" then some [128] else none) "/in/a.bin" "x" "" =
      .ok ("const char x[] = \x7b\n4294967168,\n\x7d;\nconst size_t x_len = sizeof(x);\n",
           "\nextern \"C\" const char x[];\nextern \"C\" const size_t x_len;\n") := by
  rfl

/-! ## The end-to-end example -/

/-- **C2, as stated, fails.** The source text written for the example has a
newline between the opening brace and the first byte, so it does not contain
`const char kA[] = {1,2,3,` followed by a newline and `};`. -/
theorem C2_counterexample :
    (mainRun packEnv 1 "/in/Pack.rc.json" packFiles).2.1 =
      [.load "/in/Pack.rc.json",
       .write "/in/Pack.c"
         "const char kA[] = \x7b\n1,2,3,\n\x7d;\nconst size_t kA_len = sizeof(kA);\n",
       .write "/in/Pack.h"
         "// Auto-generated resource file. Do not edit.\n\n#pragma once\n\n\nextern \"C\" const char kA[];\nextern \"C\" const size_t kA_len;\n"] ∧
    containsText "const char kA[] = \x7b\n1,2,3,\n\x7d;\nconst size_t kA_len = sizeof(kA);\n"
      "const char kA[] = \x7b1,2,3,\n\x7d;" = false ∧
    containsText "const char kA[] = \x7b\n1,2,3,\n\x7d;\nconst size_t kA_len = sizeof(kA);\n"
      "const char kA[] = \x7b1,2,3," = false := by
  decide

/-- **C2, amended.** The run of the example returns; `Pack.c` holds
`const char kA[] = {`, a newline, `1,2,3,`, a newline and `};`, and the line
`const size_t kA_len = sizeof(kA);`; `Pack.h` holds the banner and the two extern
declarations of `kA` and `kA_len`, and no namespace guard. -/
theorem C2_end_to_end :
    (mainRun packEnv 1 "/in/Pack.rc.json" packFiles).2 =
      ([.load "/in/Pack.rc.json",
        .write "/in/Pack.c"
          "const char kA[] = \x7b\n1,2,3,\n\x7d;\nconst size_t kA_len = sizeof(kA);\n",
        .write "/in/Pack.h"
          "// Auto-generated resource file. Do not edit.\n\n#pragma once\n\n\nextern \"C\" const char kA[];\nextern \"C\" const size_t kA_len;\n"],
       .done) ∧
    (mainRun packEnv 1 "/in/Pack.rc.json" packFiles).1 "/in/Pack.c" =
      some (utf8 "const char kA[] = \x7b\n1,2,3,\n\x7d;\nconst size_t kA_len = sizeof(kA);\n") ∧
    (mainRun packEnv 1 "/in/Pack.rc.json" packFiles).1 "/in/Pack.h" =
      some (utf8 "// Auto-generated resource file. Do not edit.\n\n#pragma once\n\n\nextern \"C\" const char kA[];\nextern \"C\" const size_t kA_len;\n") ∧
    containsText "const char kA[] = \x7b\n1,2,3,\n\x7d;\nconst size_t kA_len = sizeof(kA);\n"
      "const char kA[] = \x7b\n1,2,3,\n\x7d;" = true ∧
    containsText "const char kA[] = \x7b\n1,2,3,\n\x7d;\nconst size_t kA_len = sizeof(kA);\n"
      "const size_t kA_len = sizeof(kA);" = true ∧
    containsText "// Auto-generated resource file. Do not edit.\n\n#pragma once\n\n\nextern \"C\" const char kA[];\nextern \"C\" const size_t kA_len;\n"
      "extern \"C\" const char kA[];" = true ∧
    containsText "// Auto-generated resource file. Do not edit.\n\n#pragma once\n\n\nextern \"C\" const char kA[];\nextern \"C\" const size_t kA_len;\n"
      "extern \"C\" const size_t kA_len;" = true ∧
    containsText "// Auto-generated resource file. Do not edit.\n\n#pragma once\n\n\nextern \"C\" const char kA[];\nextern \"C\" const size_t kA_len;\n"
      "namespace" = false ∧
    containsText "// Auto-generated resource file. Do not edit.\n\n#pragma once\n\n\nextern \"C\" const char kA[];\nextern \"C\" const size_t kA_len;\n"
      "__cplusplus" = false := by
  decide

/-! ## A manifest without content -/

theorem ProcessResource_succ (E : Env) (fuel : Nat) (resource : Resource) (b : Bool)
    (files : Files) :
    ProcessResource E (fuel + 1) resource b files =
      match contentLoop E (recurWith E fuel) resource resource._content emptyAcc files with
      | (acc, files1, evs, .done) =>
        (writeFile E (writeFile E files1 (sourcePath E resource) (sourceText resource acc))
            (headerPath E resource) (headerText resource acc),
          evs ++ [.write (sourcePath E resource) (sourceText resource acc),
                  .write (headerPath E resource) (headerText resource acc)],
          .done)
      | (_, files1, evs, st) => (files1, evs, st) := by
  rfl

theorem contentLoop_nil (E : Env) (recur : Resource → Files → Files × List Event × Status)
    (resource : Resource) (acc : Acc) (files : Files) :
    contentLoop E recur resource [] acc files = (acc, files, [], .done) := rfl

theorem contentLoop_cons (E : Env) (recur : Resource → Files → Files × List Event × Status)
    (resource : Resource) (item : ResourceContent) (rest : List ResourceContent)
    (acc : Acc) (files : Files) :
    contentLoop E recur resource (item :: rest) acc files =
      match contentStep E recur resource item acc files with
      | (acc1, files1, evs1, .done) =>
        match contentLoop E recur resource rest acc1 files1 with
        | (acc2, files2, evs2, st) => (acc2, files2, evs1 ++ evs2, st)
      | r => r := rfl

/-- The loop over `xs ++ ys` is the loop over `xs` and, when that returns, the
loop over `ys` from where it stopped. -/
theorem contentLoop_append (E : Env) (recur : Resource → Files → Files × List Event × Status)
    (resource : Resource) (xs ys : List ResourceContent) (acc : Acc) (files : Files) :
    contentLoop E recur resource (xs ++ ys) acc files =
      match contentLoop E recur resource xs acc files with
      | (acc1, files1, evs1, .done) =>
        match contentLoop E recur resource ys acc1 files1 with
        | (acc2, files2, evs2, st) => (acc2, files2, evs1 ++ evs2, st)
      | r => r := by
  induction xs generalizing acc files with
  | nil => simp [contentLoop_nil]
  | cons x xs ih =>
    rw [List.cons_append, contentLoop_cons, contentLoop_cons]
    rcases hx : contentStep E recur resource x acc files with ⟨a1, f1, e1, s1⟩
    cases s1 with
    | done =>
      simp only [ih]
      rcases hxs : contentLoop E recur resource xs a1 f1 with ⟨a2, f2, e2, s2⟩
      cases s2 <;> simp [List.append_assoc]
    | failed e => simp
    | outOfFuel => simp

/-- An entry that is the manifest itself leaves everything as it is. -/
theorem contentStep_self (E : Env) (recur : Resource → Files → Files × List Event × Status)
    (resource : Resource) (item : ResourceContent) (acc : Acc) (files : Files)
    (h : isSelfReference E resource item = true) :
    contentStep E recur resource item acc files = (acc, files, [], .done) := by
  simp [contentStep, h]

/-- The loop reads the resource only through its relative path. -/
theorem contentLoop_content_irrelevant (E : Env)
    (recur : Resource → Files → Files × List Event × Status)
    (name nspace rel : String) (deps : List String) (c1 c2 items : List ResourceContent)
    (acc : Acc) (files : Files) :
    contentLoop E recur ⟨name, nspace, deps, c1, rel⟩ items acc files =
      contentLoop E recur ⟨name, nspace, deps, c2, rel⟩ items acc files := by
  induction items generalizing acc files with
  | nil => rfl
  | cons x xs ih =>
    rw [contentLoop_cons, contentLoop_cons]
    have : contentStep E recur ⟨name, nspace, deps, c1, rel⟩ x acc files =
        contentStep E recur ⟨name, nspace, deps, c2, rel⟩ x acc files := rfl
    rw [this]
    rcases contentStep E recur ⟨name, nspace, deps, c2, rel⟩ x acc files with ⟨a1, f1, e1, s1⟩
    cases s1 <;> simp [ih]

/-! ## Self-reference -/

/-- **C5.** An entry whose resolved path equals the path of the manifest itself
is passed over: the pass through the loop body changes no accumulator and no
file and produces no event, and the whole call gives the same files, the same
events and the same status as for the manifest without that entry. -/
theorem C5_self_reference_skipped (E : Env) (fuel : Nat) (name nspace rel : String)
    (deps : List String) (pre post : List ResourceContent) (item : ResourceContent)
    (isRootResource : Bool) (files : Files)
    (h : E.pathEq (E.append (E.parent_path (E.append E.resourceDirPath rel)) item._path)
          (E.append E.resourceDirPath rel) = true) :
    (∀ (recur : Resource → Files → Files × List Event × Status) (acc : Acc) (fs : Files),
      contentStep E recur ⟨name, nspace, deps, pre ++ item :: post, rel⟩ item acc fs =
        (acc, fs, [], .done)) ∧
    ProcessResource E fuel ⟨name, nspace, deps, pre ++ item :: post, rel⟩ isRootResource files =
      ProcessResource E fuel ⟨name, nspace, deps, pre ++ post, rel⟩ isRootResource files := by
  have hself : ∀ c, isSelfReference E ⟨name, nspace, deps, c, rel⟩ item = true := fun _ => h
  refine ⟨fun recur acc fs => contentStep_self E recur _ item acc fs (hself _), ?_⟩
  cases fuel with
  | zero => rfl
  | succ n =>
    rw [ProcessResource_succ, ProcessResource_succ]
    have hloop : contentLoop E (recurWith E n) ⟨name, nspace, deps, pre ++ item :: post, rel⟩
        (pre ++ item :: post) emptyAcc files =
        contentLoop E (recurWith E n) ⟨name, nspace, deps, pre ++ post, rel⟩
          (pre ++ post) emptyAcc files := by
      rw [contentLoop_append, contentLoop_append,
        contentLoop_content_irrelevant E _ name nspace rel deps (pre ++ item :: post)
          (pre ++ post) pre]
      rcases contentLoop E (recurWith E n) ⟨name, nspace, deps, pre ++ post, rel⟩ pre
        emptyAcc files with ⟨a1, f1, e1, s1⟩
      cases s1 with
      | done =>
        simp only
        rw [contentLoop_cons, contentStep_self E _ _ item a1 f1 (hself _)]
        simp only [List.nil_append]
        rw [contentLoop_content_irrelevant E _ name nspace rel deps (pre ++ item :: post)
          (pre ++ post) post]
      | failed e => rfl
      | outOfFuel => rfl
    rw [hloop]
    rfl

/-- The manifest `Pack.rc.json` lists `Pack.rc.json`: the entry is passed over. -/
theorem C5_self_reference_skipped_witness :
    (∀ (recur : Resource → Files → Files × List Event × Status) (acc : Acc) (fs : Files),
      contentStep packEnv recur
          ⟨"Pack", "", [], [] ++ ⟨"Pack.rc.json", "self", ""⟩ :: [⟨"a.bin", "kA", ""⟩],
            "Pack.rc.json"⟩
          ⟨"Pack.rc.json", "self", ""⟩ acc fs =
        (acc, fs, [], .done)) ∧
    ProcessResource packEnv 1
        ⟨"Pack", "", [], [] ++ ⟨"Pack.rc.json", "self", ""⟩ :: [⟨"a.bin", "kA", ""⟩],
          "Pack.rc.json"⟩ true packFiles =
      ProcessResource packEnv 1 ⟨"Pack", "", [], [] ++ [⟨"a.bin", "kA", ""⟩], "Pack.rc.json"⟩
        true packFiles :=
  C5_self_reference_skipped packEnv 1 "Pack" "" "Pack.rc.json" [] []
    [⟨"a.bin", "kA", ""⟩] ⟨"Pack.rc.json", "self", ""⟩ true packFiles (by decide)

/-! ## What one pass through the loop body does -/

theorem ProcessFileContent_some (E : Env) (files : Files) (sourceFile name header : String)
    (data : List Byte) (h : files sourceFile = some data) (hlen : data.length ≤ INT_MAX) :
    ProcessFileContent E files sourceFile name header =
      .ok (arrayLiteral E.charIsSigned name data, header ++ externDeclarations name) := by
  simp only [ProcessFileContent, h, emitBytes_eq _ data 0 _ (by omega), arrayLiteral,
    externDeclarations]

theorem ProcessFileContent_none (E : Env) (files : Files) (sourceFile name header : String)
    (h : files sourceFile = none) :
    ProcessFileContent E files sourceFile name header =
      .error (.filesystem_error
        ("ERROR: No file found at address: " ++ sourceFile ++ "\n For name " ++ name)) := by
  simp [ProcessFileContent, h]

theorem headerClose_headerOpen (item : ResourceContent) :
    headerClose item (headerOpen item ++ externDeclarations item._name) =
      entryHeaderFragment item := by
  by_cases h : item._namespace = ""
  · simp [headerClose, headerOpen, entryHeaderFragment, h]
  · simp [headerClose, headerOpen, entryHeaderFragment, h, String.append_assoc]

/-- A leaf entry whose file is there: the array literal goes to the source
accumulator and the header fragment to the header accumulator. -/
theorem contentStep_leaf_some (E : Env) (recur : Resource → Files → Files × List Event × Status)
    (resource : Resource) (item : ResourceContent) (acc : Acc) (files : Files)
    (data : List Byte) (hleaf : isLeafEntry E resource item = true)
    (h : files (itemPathOf E resource item) = some data) (hlen : data.length ≤ INT_MAX) :
    contentStep E recur resource item acc files =
      (⟨acc.internalDependencies,
        acc.data ++ arrayLiteral E.charIsSigned item._name data,
        acc.headerData ++ entryHeaderFragment item⟩, files, [], .done) := by
  simp only [isLeafEntry, Bool.and_eq_true, Bool.not_eq_true'] at hleaf
  simp [contentStep, hleaf.1, hleaf.2, ProcessFileContent_some E files _ _ _ data h hlen,
    headerClose_headerOpen]

/-- A leaf entry whose file has more than `INT_MAX` bytes: the run stops at the
increment of the loop counter. -/
theorem contentStep_leaf_overflow (E : Env)
    (recur : Resource → Files → Files × List Event × Status)
    (resource : Resource) (item : ResourceContent) (acc : Acc) (files : Files)
    (data : List Byte) (hleaf : isLeafEntry E resource item = true)
    (h : files (itemPathOf E resource item) = some data) (hlen : INT_MAX < data.length) :
    contentStep E recur resource item acc files =
      (acc, files, [], .failed .int_overflow) := by
  simp only [isLeafEntry, Bool.and_eq_true, Bool.not_eq_true'] at hleaf
  simp [contentStep, hleaf.1, hleaf.2, ProcessFileContent_overflow E files _ _ _ data h hlen]

/-- A leaf entry whose file is missing: the exception of `ProcessFileContent`. -/
theorem contentStep_leaf_none (E : Env) (recur : Resource → Files → Files × List Event × Status)
    (resource : Resource) (item : ResourceContent) (acc : Acc) (files : Files)
    (hleaf : isLeafEntry E resource item = true)
    (h : files (itemPathOf E resource item) = none) :
    contentStep E recur resource item acc files =
      (acc, files, [], .failed (.filesystem_error
        ("ERROR: No file found at address: " ++ itemPathOf E resource item ++
          "\n For name " ++ item._name))) := by
  simp only [isLeafEntry, Bool.and_eq_true, Bool.not_eq_true'] at hleaf
  simp [contentStep, hleaf.1, hleaf.2, ProcessFileContent_none E files _ _ _ h]

theorem LoadResourceDataFromJSON_fst (E : Env) (files : Files) (jsonPath : String) :
    (LoadResourceDataFromJSON E files jsonPath).1 = .load (jsonPathOf E jsonPath) := by
  simp only [LoadResourceDataFromJSON]
  cases E.parse (ReadAsciiFileToString files (jsonPathOf E jsonPath)) with
  | none => rfl
  | some jsonObj =>
    simp only
    cases copyArray jsonObj.dependencies 0 [] with
    | none => rfl
    | some deps =>
      simp only
      cases copyArray jsonObj.content 0 [] <;> rfl

/-- A nested manifest: the load event comes first, then the events of the
recursive call; the include line is added when the call returns. -/
theorem contentStep_nested (E : Env) (recur : Resource → Files → Files × List Event × Status)
    (resource : Resource) (item : ResourceContent) (acc : Acc) (files : Files)
    (hn : isNestedEntry E resource item = true) :
    contentStep E recur resource item acc files =
      match (LoadResourceDataFromJSON E files (itemPathOf E resource item)).2 with
      | .error e =>
        (acc, files, [.load (jsonPathOf E (itemPathOf E resource item))], .failed e)
      | .ok subresource =>
        match recur subresource files with
        | (files1, evs, .done) =>
          (⟨acc.internalDependencies ++ internalInclude E subresource, acc.data,
              acc.headerData⟩,
            files1, .load (jsonPathOf E (itemPathOf E resource item)) :: evs, .done)
        | (files1, evs, st) =>
          (acc, files1, .load (jsonPathOf E (itemPathOf E resource item)) :: evs, st) := by
  simp only [isNestedEntry, Bool.and_eq_true, Bool.not_eq_true'] at hn
  have h1 := LoadResourceDataFromJSON_fst E files (itemPathOf E resource item)
  rcases hl : LoadResourceDataFromJSON E files (itemPathOf E resource item) with ⟨ev, r⟩
  rw [hl] at h1
  simp only at h1
  subst h1
  simp only [contentStep, hn.1, hn.2, hl, Bool.false_eq_true, if_false, if_true]
  cases r with
  | error e => rfl
  | ok sub =>
    rcases recur sub files with ⟨f1, evs, st⟩
    cases st <;> rfl

/-- Every entry is the manifest itself, a nested manifest or a leaf. -/
theorem entry_cases (E : Env) (resource : Resource) (item : ResourceContent) :
    isSelfReference E resource item = true ∨ isNestedEntry E resource item = true ∨
      isLeafEntry E resource item = true := by
  unfold isNestedEntry isLeafEntry
  cases isSelfReference E resource item <;> cases isManifestEntry E resource item <;> simp

/-! ## The accumulators after the loop -/

/-- A nested entry whose pass through the loop body returns: the manifest was
loaded from the file system of that moment, the recursive call on it returned,
its include line was added to the internal includes, and the events are the
load followed by the events of the recursive call. -/
theorem contentStep_nested_done (E : Env)
    (recur : Resource → Files → Files × List Event × Status) (resource : Resource)
    (item : ResourceContent) (acc acc1 : Acc) (files files1 : Files) (evs : List Event)
    (hn : isNestedEntry E resource item = true)
    (h : contentStep E recur resource item acc files = (acc1, files1, evs, .done)) :
    ∃ sub : Resource,
      (LoadResourceDataFromJSON E files (itemPathOf E resource item)).2 = .ok sub ∧
      (recur sub files).2.2 = .done ∧
      acc1 = ⟨acc.internalDependencies ++ internalInclude E sub, acc.data, acc.headerData⟩ ∧
      files1 = (recur sub files).1 ∧
      evs = .load (jsonPathOf E (itemPathOf E resource item)) :: (recur sub files).2.1 := by
  rw [contentStep_nested E _ resource item acc files hn] at h
  cases hload : (LoadResourceDataFromJSON E files (itemPathOf E resource item)).2 with
  | error e => rw [hload] at h; simp at h
  | ok sub =>
    rw [hload] at h
    simp only at h
    rcases hr : recur sub files with ⟨f', evs', st'⟩
    rw [hr] at h
    cases st' with
    | failed e => simp at h
    | outOfFuel => simp at h
    | done =>
      simp only [Prod.mk.injEq] at h
      obtain ⟨rfl, rfl, rfl, -⟩ := h
      exact ⟨sub, rfl, by rw [hr], rfl, by rw [hr], by rw [hr]⟩

/-- When the loop returns, the source accumulator has grown by one array
literal per leaf entry, the header accumulator by one header fragment per leaf
entry and the internal includes by one include line per nested manifest, all in
the order of the content list. -/
theorem contentLoop_done_shape (E : Env)
    (recur : Resource → Files → Files × List Event × Status) (resource : Resource)
    (items : List ResourceContent) (acc acc1 : Acc) (files files1 : Files)
    (evs : List Event)
    (h : contentLoop E recur resource items acc files = (acc1, files1, evs, .done)) :
    ∃ (subs : List Resource) (sources : List String),
      List.Forall₂
        (fun item sub => ∃ fs : Files,
          (LoadResourceDataFromJSON E fs (itemPathOf E resource item)).2 = .ok sub)
        (items.filter (isNestedEntry E resource)) subs ∧
      List.Forall₂ (fun item s => ∃ data, s = arrayLiteral E.charIsSigned item._name data)
        (items.filter (isLeafEntry E resource)) sources ∧
      acc1.internalDependencies =
        acc.internalDependencies ++ concatAll (subs.map (internalInclude E)) ∧
      acc1.data = acc.data ++ concatAll sources ∧
      acc1.headerData = acc.headerData ++
        concatAll ((items.filter (isLeafEntry E resource)).map entryHeaderFragment) := by
  induction items generalizing acc files evs with
  | nil =>
    rw [contentLoop_nil] at h
    simp only [Prod.mk.injEq] at h
    obtain ⟨rfl, -, -, -⟩ := h
    exact ⟨[], [], by simp, by simp, by simp [concatAll], by simp [concatAll],
      by simp [concatAll]⟩
  | cons x xs ih =>
    rw [contentLoop_cons] at h
    rcases hx : contentStep E recur resource x acc files with ⟨a1, f1, e1, s1⟩
    rw [hx] at h
    cases s1 with
    | failed e => simp at h
    | outOfFuel => simp at h
    | done =>
      simp only at h
      rcases hxs : contentLoop E recur resource xs a1 f1 with ⟨a2, f2, e2, s2⟩
      rw [hxs] at h
      simp only [Prod.mk.injEq] at h
      obtain ⟨rfl, rfl, -, rfl⟩ := h
      obtain ⟨subs, sources, hN, hF, hi, hd, hh⟩ := ih a1 f1 e2 hxs
      rcases entry_cases E resource x with hs | hn | hl
      · have hnl : isLeafEntry E resource x = false := by simp [isLeafEntry, hs]
        have hnn : isNestedEntry E resource x = false := by simp [isNestedEntry, hs]
        rw [contentStep_self E recur resource x acc files hs] at hx
        simp only [Prod.mk.injEq] at hx
        obtain ⟨rfl, -, -, -⟩ := hx
        refine ⟨subs, sources, ?_, ?_, hi, hd, ?_⟩
        · simpa [List.filter_cons, hnn] using hN
        · simpa [List.filter_cons, hnl] using hF
        · simpa [List.filter_cons, hnl] using hh
      · have hnl : isLeafEntry E resource x = false := by
          simp only [isNestedEntry, Bool.and_eq_true, Bool.not_eq_true'] at hn
          simp [isLeafEntry, hn.1, hn.2]
        obtain ⟨sub, hload, -, rfl, -, -⟩ :=
          contentStep_nested_done E recur resource x acc a1 files f1 e1 hn hx
        refine ⟨sub :: subs, sources, ?_, ?_, ?_, hd, ?_⟩
        · simp only [List.filter_cons, hn, if_true]
          exact List.Forall₂.cons ⟨files, hload⟩ hN
        · simpa [List.filter_cons, hnl] using hF
        · simpa [concatAll, String.append_assoc] using hi
        · simpa [List.filter_cons, hnl] using hh
      · have hnn : isNestedEntry E resource x = false := by
          simp only [isLeafEntry, Bool.and_eq_true, Bool.not_eq_true'] at hl
          simp [isNestedEntry, hl.1, hl.2]
        cases hf : files (itemPathOf E resource x) with
        | none =>
          rw [contentStep_leaf_none E recur resource x acc files hl hf] at hx
          simp at hx
        | some data =>
          by_cases hlen : data.length ≤ INT_MAX
          case neg =>
            rw [contentStep_leaf_overflow E recur resource x acc files data hl hf
              (by omega)] at hx
            simp at hx
          rw [contentStep_leaf_some E recur resource x acc files data hl hf hlen] at hx
          simp only [Prod.mk.injEq] at hx
          obtain ⟨rfl, -, -, -⟩ := hx
          refine ⟨subs, arrayLiteral E.charIsSigned x._name data :: sources, ?_, ?_, hi, ?_, ?_⟩
          · simpa [List.filter_cons, hnn] using hN
          · simp only [List.filter_cons, hl, if_true]
            exact List.Forall₂.cons ⟨data, rfl⟩ hF
          · simpa [concatAll, String.append_assoc] using hd
          · simpa [List.filter_cons, hl, concatAll, String.append_assoc] using hh

theorem headerText_eq (resource : Resource) (acc : Acc) :
    headerText resource acc =
      headerBanner ++ renderDependencies resource._dependencies ++ acc.internalDependencies ++
        wrapNamespace resource._namespace acc.headerData := by
  by_cases h : resource._namespace = ""
  · simp [headerText, wrapNamespace, headerBanner, h, String.append_assoc]
  · simp [headerText, wrapNamespace, headerBanner, h, String.append_assoc]

/-- A call that returns has written its two files last. -/
theorem ProcessResource_done (E : Env) (fuel : Nat) (resource : Resource) (b : Bool)
    (files : Files) (h : (ProcessResource E fuel resource b files).2.2 = .done) :
    ∃ (n : Nat) (acc : Acc) (files1 : Files) (evs : List Event),
      fuel = n + 1 ∧
      contentLoop E (recurWith E n) resource resource._content emptyAcc files =
        (acc, files1, evs, .done) ∧
      ProcessResource E fuel resource b files =
        (writeFile E (writeFile E files1 (sourcePath E resource) (sourceText resource acc))
            (headerPath E resource) (headerText resource acc),
          evs ++ [.write (sourcePath E resource) (sourceText resource acc),
                  .write (headerPath E resource) (headerText resource acc)],
          .done) := by
  cases fuel with
  | zero => simp [ProcessResource] at h
  | succ n =>
    rw [ProcessResource_succ] at h ⊢
    rcases hl : contentLoop E (recurWith E n) resource resource._content emptyAcc files
      with ⟨acc, f1, evs, st⟩
    rw [hl] at h
    cases st with
    | done => exact ⟨n, acc, f1, evs, rfl, hl, rfl⟩
    | failed e => cases h
    | outOfFuel => cases h

/-! ## Namespace wrapping -/

/-- **C4.** When `ProcessResource` returns, the last two events are the writes
of the source and of the header.  The header text is the banner, the include
lines of the dependencies, one include line `#include "<header of the nested
manifest>"` per nested manifest and nothing else before the header body.  The
body is the header fragments of the leaf entries in order: a fragment is the two
extern declarations, enclosed in one guarded `namespace NS {` and one guarded
closer when the entry has a namespace and bare otherwise; a namespace of the
resource puts one guarded opener before the whole body and one guarded closer
after it, whatever the number of entries.  The source text is the include lines
and one array literal per leaf entry: no namespace text is added to it. -/
theorem C4_namespace_wrapping (E : Env) (fuel : Nat) (resource : Resource)
    (isRootResource : Bool) (files : Files)
    (hdone : (ProcessResource E fuel resource isRootResource files).2.2 = .done) :
    ∃ (earlier : List Event) (subs : List Resource) (sources : List String),
      List.Forall₂
        (fun item sub => ∃ fs : Files,
          (LoadResourceDataFromJSON E fs (itemPathOf E resource item)).2 = .ok sub)
        (resource._content.filter (isNestedEntry E resource)) subs ∧
      List.Forall₂ (fun item s => ∃ data, s = arrayLiteral E.charIsSigned item._name data)
        (resource._content.filter (isLeafEntry E resource)) sources ∧
      (ProcessResource E fuel resource isRootResource files).2.1 =
        earlier ++
          [.write (sourcePath E resource)
              (renderDependencies resource._dependencies ++ concatAll sources),
           .write (headerPath E resource)
              (headerBanner ++ renderDependencies resource._dependencies ++
                concatAll (subs.map (fun sub =>
                  "#include \"" ++
                    c_str (E.append (E.parent_path sub._relativePath) (sub._name ++ ".h")) ++
                    "\"\n")) ++
                wrapNamespace resource._namespace
                  (concatAll ((resource._content.filter (isLeafEntry E resource)).map
                    entryHeaderFragment)))] := by
  obtain ⟨n, acc, f1, evs, -, hloop, hrun⟩ :=
    ProcessResource_done E fuel resource isRootResource files hdone
  obtain ⟨subs, sources, hN, hF, hi, hd, hh⟩ :=
    contentLoop_done_shape E _ resource _ _ _ _ _ _ hloop
  refine ⟨evs, subs, sources, hN, hF, ?_⟩
  rw [hrun, headerText_eq]
  have hinc : (fun sub : Resource => "#include \"" ++
      c_str (E.append (E.parent_path sub._relativePath) (sub._name ++ ".h")) ++ "\"\n") =
      internalInclude E := by
    funext sub
    simp [internalInclude, String.append_assoc]
  simp only [sourceText, hi, hd, hh, hinc, emptyAcc, String.empty_append]

/-- The manifest with the namespace `Outer` and the leaf `kB` in the namespace `Inner`. -/
theorem C4_namespace_wrapping_witness :
    ∃ (earlier : List Event) (subs : List Resource) (sources : List String),
      List.Forall₂
        (fun item sub => ∃ fs : Files,
          (LoadResourceDataFromJSON nestEnv fs (itemPathOf nestEnv namespaceResource item)).2 =
            .ok sub)
        (namespaceResource._content.filter (isNestedEntry nestEnv namespaceResource)) subs ∧
      List.Forall₂ (fun item s => ∃ data, s = arrayLiteral nestEnv.charIsSigned item._name data)
        (namespaceResource._content.filter (isLeafEntry nestEnv namespaceResource)) sources ∧
      (ProcessResource nestEnv 2 namespaceResource true namespaceFiles).2.1 =
        earlier ++
          [.write (sourcePath nestEnv namespaceResource)
              (renderDependencies namespaceResource._dependencies ++ concatAll sources),
           .write (headerPath nestEnv namespaceResource)
              (headerBanner ++ renderDependencies namespaceResource._dependencies ++
                concatAll (subs.map (fun sub =>
                  "#include \"" ++
                    c_str (nestEnv.append (nestEnv.parent_path sub._relativePath)
                      (sub._name ++ ".h")) ++
                    "\"\n")) ++
                wrapNamespace namespaceResource._namespace
                  (concatAll ((namespaceResource._content.filter
                    (isLeafEntry nestEnv namespaceResource)).map entryHeaderFragment)))] :=
  C4_namespace_wrapping nestEnv 2 namespaceResource true namespaceFiles (by decide)

/-- The events of the namespace example, spelled out: the header has the include
of the dependency, the include of `A.h`, one opener of `Outer`, the bare
declarations of `kA`, the declarations of `kB` inside `Inner`, and one closer of
`Outer`. -/
theorem namespace_example_events :
    (ProcessResource nestEnv 2 namespaceResource true namespaceFiles).2 =
      ([.load "/in/A.rc.json",
        .write "/in/A.c"
          "const char kA[] = \x7b\n1,2,3,\n\x7d;\nconst size_t kA_len = sizeof(kA);\n",
        .write "/in/A.h"
          "// Auto-generated resource file. Do not edit.\n\n#pragma once\n\n\nextern \"C\" const char kA[];\nextern \"C\" const size_t kA_len;\n",
        .write "/in/Pack.c"
          "#include <stdio.h>\nconst char kA[] = \x7b\n1,2,3,\n\x7d;\nconst size_t kA_len = sizeof(kA);\nconst char kB[] = \x7b\n4294967295,\n\x7d;\nconst size_t kB_len = sizeof(kB);\n",
        .write "/in/Pack.h"
          "// Auto-generated resource file. Do not edit.\n\n#pragma once\n\n#include <stdio.h>\n#include \"A.h\"\n#if __cplusplus\nnamespace Outer\n\x7b\n#endif\n\nextern \"C\" const char kA[];\nextern \"C\" const size_t kA_len;\n\n#if __cplusplus\nnamespace Inner \x7b\n#endif\n\nextern \"C\" const char kB[];\nextern \"C\" const size_t kB_len;\n\n#if __cplusplus\n\x7d;\n#endif\n#if __cplusplus\n\x7d;\n#endif\n"],
       .done) := by
  set_option maxRecDepth 100000 in decide

/-! ## A missing leaf file -/

/-- The events of the nesting example, spelled out: `A` is loaded and its two
files are written, then `B` is loaded and its two files are written, then the
two files of `P` are written. -/
theorem nesting_example_events :
    (ProcessResource nestEnv 2 nestResourceP true nestFiles).2 =
      ([.load "/in/A.rc.json",
        .write "/in/A.c"
          "const char kA[] = \x7b\n1,2,3,\n\x7d;\nconst size_t kA_len = sizeof(kA);\n",
        .write "/in/A.h"
          "// Auto-generated resource file. Do not edit.\n\n#pragma once\n\n\nextern \"C\" const char kA[];\nextern \"C\" const size_t kA_len;\n",
        .load "/in/B.rc.json",
        .write "/in/B.c" "",
        .write "/in/B.h" "// Auto-generated resource file. Do not edit.\n\n#pragma once\n\n",
        .write "/in/P.c" "",
        .write "/in/P.h"
          "// Auto-generated resource file. Do not edit.\n\n#pragma once\n\n#include \"A.h\"\n#include \"B.h\"\n"],
       .done) := by
  decide

/-! ## An induction principle for the events and the files of a call -/

/-- A relation between the file system before a call, the one after it and the
events of the call holds for `ProcessResource` when it holds for no event, for
a load, for a write of an output file, and is closed under sequencing. -/
theorem ProcessResource_induct (E : Env) (Q : Files → Files → List Event → Prop)
    (hrefl : ∀ f, Q f f [])
    (htrans : ∀ f1 f2 f3 e1 e2, Q f1 f2 e1 → Q f2 f3 e2 → Q f1 f3 (e1 ++ e2))
    (hload : ∀ f p, Q f f [.load p])
    (hwrite : ∀ f p t, (∃ r : Resource, p = sourcePath E r ∨ p = headerPath E r) →
      Q f (writeFile E f p t) [.write p t]) :
    ∀ (fuel : Nat) (resource : Resource) (b : Bool) (files : Files),
      Q files (ProcessResource E fuel resource b files).1
        (ProcessResource E fuel resource b files).2.1 := by
  intro fuel
  induction fuel with
  | zero => intro resource b files; exact hrefl files
  | succ n ih =>
    intro resource b files
    have hstep : ∀ (item : ResourceContent) (acc : Acc) (f : Files),
        Q f (contentStep E (recurWith E n) resource item acc f).2.1
          (contentStep E (recurWith E n) resource item acc f).2.2.1 := by
      intro item acc f
      rcases entry_cases E resource item with hs | hn | hl
      · rw [contentStep_self E _ resource item acc f hs]
        exact hrefl f
      · rw [contentStep_nested E _ resource item acc f hn]
        cases (LoadResourceDataFromJSON E f (itemPathOf E resource item)).2 with
        | error e => exact hload f _
        | ok sub =>
          have hsub := ih sub false f
          simp only
          rcases hr : recurWith E n sub f with ⟨f', evs', st'⟩
          have hr' : ProcessResource E n sub false f = (f', evs', st') := hr
          rw [hr'] at hsub
          have := htrans f f f' [.load (jsonPathOf E (itemPathOf E resource item))] evs'
            (hload f _) hsub
          cases st' <;> exact this
      · cases hf : f (itemPathOf E resource item) with
        | none =>
          rw [contentStep_leaf_none E _ resource item acc f hl hf]
          exact hrefl f
        | some data =>
          by_cases hlen : data.length ≤ INT_MAX
          · rw [contentStep_leaf_some E _ resource item acc f data hl hf hlen]
            exact hrefl f
          · rw [contentStep_leaf_overflow E _ resource item acc f data hl hf (by omega)]
            exact hrefl f
    have hloop : ∀ (items : List ResourceContent) (acc : Acc) (f : Files),
        Q f (contentLoop E (recurWith E n) resource items acc f).2.1
          (contentLoop E (recurWith E n) resource items acc f).2.2.1 := by
      intro items
      induction items with
      | nil => intro acc f; exact hrefl f
      | cons x xs ihx =>
        intro acc f
        rw [contentLoop_cons]
        have hx := hstep x acc f
        rcases hxr : contentStep E (recurWith E n) resource x acc f with ⟨a1, f1, e1, s1⟩
        rw [hxr] at hx
        cases s1 with
        | failed e => exact hx
        | outOfFuel => exact hx
        | done =>
          have hxs := ihx a1 f1
          simp only
          rcases hxr2 : contentLoop E (recurWith E n) resource xs a1 f1 with ⟨a2, f2, e2, s2⟩
          rw [hxr2] at hxs
          exact htrans f f1 f2 e1 e2 hx hxs
    rw [ProcessResource_succ]
    have hl := hloop resource._content emptyAcc files
    rcases hlr : contentLoop E (recurWith E n) resource resource._content emptyAcc files
      with ⟨acc, f1, evs, st⟩
    rw [hlr] at hl
    cases st with
    | failed e => exact hl
    | outOfFuel => exact hl
    | done =>
      have h1 := hwrite f1 (sourcePath E resource) (sourceText resource acc)
        ⟨resource, Or.inl rfl⟩
      have h2 := hwrite (writeFile E f1 (sourcePath E resource) (sourceText resource acc))
        (headerPath E resource) (headerText resource acc) ⟨resource, Or.inr rfl⟩
      have := htrans _ _ _ _ _ hl (htrans _ _ _ _ _ h1 h2)
      simpa using this

/-- A call changes no file other than those it has a write event for. -/
theorem ProcessResource_frame (E : Env) (fuel : Nat) (resource : Resource) (b : Bool)
    (files : Files) (k : String)
    (hk : ∀ text, Event.write k text ∉ (ProcessResource E fuel resource b files).2.1) :
    (ProcessResource E fuel resource b files).1 k = files k := by
  have := ProcessResource_induct E
    (fun f f' evs => ∀ k, (∀ text, Event.write k text ∉ evs) → f' k = f k)
    (fun f k _ => rfl)
    (fun f1 f2 f3 e1 e2 h12 h23 k hk => by
      rw [h23 k (fun t ht => hk t (List.mem_append_right _ ht)),
        h12 k (fun t ht => hk t (List.mem_append_left _ ht))])
    (fun f p k _ => rfl)
    (fun f p t _ k hk => by
      have hne : k ≠ p := by
        rintro rfl
        exact hk t (List.mem_singleton.mpr rfl)
      unfold writeFile
      split
      · simp [hne]
      · rfl)
    fuel resource b files
  exact this k hk

/-! ## Running the tool twice -/

theorem CleanupDirectory_eq (E : Env) (files : Files) :
    CleanupDirectory E E.resourceOutDirPath files =
      if E.is_directory E.resourceOutDirPath then
        .ok (fun p => if isCleaned E p then none else files p)
      else .error (.directory_error E.resourceOutDirPath) := by
  rfl

theorem writesAreCleaned_mem (E : Env) (evs : List Event) (h : writesAreCleaned E evs = true)
    (p text : String) (hp : Event.write p text ∈ evs) : isCleaned E p = true := by
  have := (List.all_eq_true.mp h) _ hp
  simpa using this

/-- **C9, as stated, fails.** The root manifest in `/w/in` embeds `../ext/A.h`
and then processes the nested manifest `../ext/A.rc`, whose header is written to
that same file outside the output root, where `CleanupDirectory` does not look.
Both runs return, but the second run embeds the header the first run wrote
instead of the byte 7, so `Root.c` differs. -/
theorem C9_counterexample :
    (mainRun staleEnv 2 "/w/in/Root.rc.json" staleFiles).2.2 = .done ∧
    (mainRun staleEnv 2 "/w/in/Root.rc.json"
        (mainRun staleEnv 2 "/w/in/Root.rc.json" staleFiles).1).2.2 = .done ∧
    (mainRun staleEnv 2 "/w/in/Root.rc.json" staleFiles).1 "/w/in/Root.c" =
      some (utf8 "const char kH[] = \x7b\n7,\n\x7d;\nconst size_t kH_len = sizeof(kH);\n") ∧
    (mainRun staleEnv 2 "/w/in/Root.rc.json"
        (mainRun staleEnv 2 "/w/in/Root.rc.json" staleFiles).1).1 "/w/in/Root.c" ≠
      (mainRun staleEnv 2 "/w/in/Root.rc.json" staleFiles).1 "/w/in/Root.c" := by
  set_option maxRecDepth 100000 in decide

/-- **C9, amended.** When a run of the tool returns and every file it wrote is
one that `CleanupDirectory` removes on the output root, a second run on the file
system the first run left returns as well, with the same events, hence the same
text written to every output file, and leaves the same file system. -/
theorem C9_idempotent_when_outputs_are_cleaned (E : Env) (fuel : Nat)
    (inputResourceJsonPath : String) (files : Files)
    (hok : (mainRun E fuel inputResourceJsonPath files).2.2 = .done)
    (hclean : writesAreCleaned E (mainRun E fuel inputResourceJsonPath files).2.1 = true) :
    mainRun E fuel inputResourceJsonPath (mainRun E fuel inputResourceJsonPath files).1 =
      mainRun E fuel inputResourceJsonPath files := by
  unfold mainRun at hok hclean ⊢
  simp only [CleanupDirectory_eq] at hok hclean ⊢
  by_cases hdir : E.is_directory E.resourceOutDirPath = true
  · simp only [hdir, if_true] at hok hclean ⊢
    rcases hl : LoadResourceDataFromJSON E (fun p => if isCleaned E p then none else files p)
      inputResourceJsonPath with ⟨ev, r⟩
    rw [hl] at hok hclean
    cases r with
    | error e => cases hok
    | ok R =>
      simp only at hok hclean ⊢
      rcases hp : ProcessResource E fuel R true
        (fun p => if isCleaned E p then none else files p) with ⟨f2, evs, st⟩
      rw [hp] at hok hclean
      simp only at hok hclean ⊢
      have hfun : (fun p => if isCleaned E p then none else f2 p) =
          (fun p => if isCleaned E p then none else files p) := by
        funext p
        by_cases hc : isCleaned E p = true
        · simp [hc]
        · simp only [hc, if_false]
          have hfr := ProcessResource_frame E fuel R true
            (fun p => if isCleaned E p then none else files p) p
            (by
              intro text hmem
              rw [hp] at hmem
              exact hc (writesAreCleaned_mem E _ hclean p text (List.mem_cons_of_mem _ hmem)))
          rw [hp] at hfr
          simpa [hc] using hfr
      rw [hfun, hl]
      simp only [hp]
  · simp only [hdir] at hok
    cases hok

/-- The run of the end-to-end example writes `Pack.c` and `Pack.h` in `/in`. -/
theorem C9_idempotent_when_outputs_are_cleaned_witness :
    mainRun packEnv 1 "/in/Pack.rc.json" (mainRun packEnv 1 "/in/Pack.rc.json" packFiles).1 =
      mainRun packEnv 1 "/in/Pack.rc.json" packFiles :=
  C9_idempotent_when_outputs_are_cleaned packEnv 1 "/in/Pack.rc.json" packFiles
    (by decide) (by decide)

/-! ## Termination -/

/-- **C10, as stated, fails.** The manifest stored as `/in/Pack.rc.json` lists
the entry path `Pack.rc`.  The entry is not the manifest's own path
`/in/Pack.rc.json`, it has the extension `.rc`, and loading it with `.json`
appended gives the same resource again: whatever the fuel, the call does not
return. -/
theorem C10_counterexample :
    isSelfReference cycleEnv cycleResource ⟨"Pack.rc", "self", ""⟩ = false ∧
    (LoadResourceDataFromJSON cycleEnv cycleFiles
      (itemPathOf cycleEnv cycleResource ⟨"Pack.rc", "self", ""⟩)).2 = .ok cycleResource ∧
    ∀ (fuel : Nat) (isRootResource : Bool),
      ProcessResource cycleEnv fuel cycleResource isRootResource cycleFiles =
        (cycleFiles, List.replicate fuel (.load "/in/Pack.rc.json"), .outOfFuel) := by
  refine ⟨by decide, rfl, ?_⟩
  intro fuel
  induction fuel with
  | zero => intro b; rfl
  | succ n ih =>
    intro b
    have hn : isNestedEntry cycleEnv cycleResource ⟨"Pack.rc", "self", ""⟩ = true := by decide
    have hload : (LoadResourceDataFromJSON cycleEnv cycleFiles
        (itemPathOf cycleEnv cycleResource ⟨"Pack.rc", "self", ""⟩)).2 = .ok cycleResource := rfl
    have hpath : jsonPathOf cycleEnv (itemPathOf cycleEnv cycleResource ⟨"Pack.rc", "self", ""⟩) =
        "/in/Pack.rc.json" := by decide
    have hc : cycleResource._content = [⟨"Pack.rc", "self", ""⟩] := rfl
    rw [ProcessResource_succ, hc, contentLoop_cons,
      contentStep_nested cycleEnv _ cycleResource _ emptyAcc cycleFiles hn, hload, hpath]
    simp only [recurWith, ih false, List.replicate_succ]

/-- A call changes no file whose path ends in `.json`, when no output path does. -/
theorem ProcessResource_json_stable (E : Env)
    (hout : ∀ (r : Resource) (p : String),
      sourcePath E r ≠ p ++ ".json" ∧ headerPath E r ≠ p ++ ".json")
    (fuel : Nat) (resource : Resource) (b : Bool) (files : Files) (p : String) :
    (ProcessResource E fuel resource b files).1 (p ++ ".json") = files (p ++ ".json") := by
  have := ProcessResource_induct E
    (fun f f' _ => ∀ p : String, f' (p ++ ".json") = f (p ++ ".json"))
    (fun f p => rfl)
    (fun f1 f2 f3 _ _ h12 h23 p => by rw [h23 p, h12 p])
    (fun f _ p => rfl)
    (fun f q t hq p => by
      have hne : p ++ ".json" ≠ q := by
        obtain ⟨r, hr | hr⟩ := hq
        · rw [hr]; exact fun h => (hout r p).1 h.symm
        · rw [hr]; exact fun h => (hout r p).2 h.symm
      unfold writeFile
      split
      · simp [hne]
      · rfl)
    fuel resource b files
  exact this p

/-- A nested manifest is loaded from a path that ends in `.json`, so the loader
sees the same manifest in two file systems that agree on such paths. -/
theorem LoadResourceDataFromJSON_stable (E : Env)
    (hext : ∀ x : String, E.pathEq x ".rc" = true → E.pathEq x ".json" = false)
    (resource : Resource) (item : ResourceContent) (f g : Files)
    (hm : isManifestEntry E resource item = true)
    (hfg : ∀ p : String, f (p ++ ".json") = g (p ++ ".json")) :
    LoadResourceDataFromJSON E f (itemPathOf E resource item) =
      LoadResourceDataFromJSON E g (itemPathOf E resource item) := by
  have hj : jsonPathOf E (itemPathOf E resource item) = itemPathOf E resource item ++ ".json" := by
    simp [jsonPathOf, hext _ hm]
  simp only [LoadResourceDataFromJSON, ReadAsciiFileToString, hj, hfg]

theorem contentLoop_terminates (E : Env) (files0 : Files)
    (hext : ∀ x : String, E.pathEq x ".rc" = true → E.pathEq x ".json" = false)
    (hout : ∀ (r : Resource) (p : String),
      sourcePath E r ≠ p ++ ".json" ∧ headerPath E r ≠ p ++ ".json")
    (n : Nat) (resource : Resource) (items : List ResourceContent)
    (hrec : ∀ item ∈ items, isNestedEntry E resource item = true →
      ∀ sub, (LoadResourceDataFromJSON E files0 (itemPathOf E resource item)).2 = .ok sub →
        ∀ g : Files, (∀ p : String, g (p ++ ".json") = files0 (p ++ ".json")) →
          (ProcessResource E n sub false g).2.2 ≠ .outOfFuel)
    (acc : Acc) (f : Files) (hf : ∀ p : String, f (p ++ ".json") = files0 (p ++ ".json")) :
    (contentLoop E (recurWith E n) resource items acc f).2.2.2 ≠ .outOfFuel := by
  induction items generalizing acc f with
  | nil => simp [contentLoop_nil]
  | cons x xs ih =>
    have ihx := fun a g hg =>
      ih (fun item hi => hrec item (List.mem_cons_of_mem _ hi)) a g hg
    rw [contentLoop_cons]
    rcases entry_cases E resource x with hs | hn | hl
    · rw [contentStep_self E _ resource x acc f hs]
      simp only
      have := ihx acc f hf
      revert this
      rcases contentLoop E (recurWith E n) resource xs acc f with ⟨a2, f2, e2, s2⟩
      exact id
    · have hm : isManifestEntry E resource x = true := by
        simp only [isNestedEntry, Bool.and_eq_true] at hn
        exact hn.2
      rw [contentStep_nested E _ resource x acc f hn,
        LoadResourceDataFromJSON_stable E hext resource x f files0 hm hf]
      cases hload : (LoadResourceDataFromJSON E files0 (itemPathOf E resource x)).2 with
      | error e => simp
      | ok sub =>
        have hsub := hrec x (List.mem_cons_self _ _) hn sub hload f hf
        have hstable : ∀ p : String,
            (ProcessResource E n sub false f).1 (p ++ ".json") = files0 (p ++ ".json") :=
          fun p => by rw [ProcessResource_json_stable E hout n sub false f p, hf p]
        simp only
        rcases hr : recurWith E n sub f with ⟨f', evs', st'⟩
        have hr' : ProcessResource E n sub false f = (f', evs', st') := hr
        rw [hr'] at hsub hstable
        cases st' with
        | failed e => simp
        | outOfFuel => exact absurd rfl hsub
        | done =>
          simp only
          have := ihx ⟨acc.internalDependencies ++ internalInclude E sub, acc.data,
            acc.headerData⟩ f' hstable
          revert this
          rcases contentLoop E (recurWith E n) resource xs _ f' with ⟨a2, f2, e2, s2⟩
          exact id
    · cases hfx : f (itemPathOf E resource x) with
      | none =>
        rw [contentStep_leaf_none E _ resource x acc f hl hfx]
        simp
      | some data =>
        by_cases hlen : data.length ≤ INT_MAX
        case neg =>
          rw [contentStep_leaf_overflow E _ resource x acc f data hl hfx (by omega)]
          simp
        rw [contentStep_leaf_some E _ resource x acc f data hl hfx hlen]
        simp only
        have := ihx ⟨acc.internalDependencies,
          acc.data ++ arrayLiteral E.charIsSigned x._name data,
          acc.headerData ++ entryHeaderFragment x⟩ f hf
        revert this
        rcases contentLoop E (recurWith E n) resource xs _ f with ⟨a2, f2, e2, s2⟩
        exact id

theorem ProcessResource_terminates (E : Env) (files0 : Files)
    (hext : ∀ x : String, E.pathEq x ".rc" = true → E.pathEq x ".json" = false)
    (hout : ∀ (r : Resource) (p : String),
      sourcePath E r ≠ p ++ ".json" ∧ headerPath E r ≠ p ++ ".json")
    (depth : Nat) :
    ∀ (resource : Resource) (b : Bool) (f : Files),
      (∀ p : String, f (p ++ ".json") = files0 (p ++ ".json")) →
      nestingWithin E files0 depth resource = true →
      (ProcessResource E (depth + 1) resource b f).2.2 ≠ .outOfFuel := by
  induction depth with
  | zero =>
    intro resource b f hf hnest
    have hloop := contentLoop_terminates E files0 hext hout 0 resource resource._content
      (by
        intro item hi hn
        have := (List.all_eq_true.mp hnest) item hi
        simp [hn] at this)
      emptyAcc f hf
    rw [ProcessResource_succ]
    revert hloop
    rcases contentLoop E (recurWith E 0) resource resource._content emptyAcc f
      with ⟨a, f1, e, st⟩
    intro hloop
    cases st with
    | done => simp
    | failed e => simp
    | outOfFuel => exact absurd rfl hloop
  | succ d ih =>
    intro resource b f hf hnest
    have hloop := contentLoop_terminates E files0 hext hout (d + 1) resource resource._content
      (by
        intro item hi hn sub hload g hg
        have := (List.all_eq_true.mp hnest) item hi
        simp only [hn, Bool.not_true, Bool.false_or, hload] at this
        exact ih sub false g hg this)
      emptyAcc f hf
    rw [ProcessResource_succ]
    revert hloop
    rcases contentLoop E (recurWith E (d + 1)) resource resource._content emptyAcc f
      with ⟨a, f1, e, st⟩
    intro hloop
    cases st with
    | done => simp
    | failed e => simp
    | outOfFuel => exact absurd rfl hloop

/-! ## The two facts on paths the termination statement asks of the library -/

theorem posixPathEq_rc_not_json (x : String) (h : posixPathEq x ".rc" = true) :
    posixPathEq x ".json" = false := by
  unfold posixPathEq at h ⊢
  rw [decide_eq_true_eq] at h
  rw [h]
  decide

theorem getLast_posixAppend (d q : String) (hq : q.data ≠ []) :
    (posixAppend d q).data.getLast? = q.data.getLast? := by
  unfold posixAppend
  split
  · rfl
  · split
    · rw [String.data_append, List.getLast?_append_of_ne_nil _ hq]
    · rw [String.data_append, List.getLast?_append_of_ne_nil _ hq]

theorem posixAppend_ne_json (d name p : String) :
    posixAppend d (name ++ ".c") ≠ p ++ ".json" ∧ posixAppend d (name ++ ".h") ≠ p ++ ".json" := by
  constructor
  · intro h
    have h1 := getLast_posixAppend d (name ++ ".c") (by simp [String.data_append])
    rw [h] at h1
    simp [String.data_append] at h1
  · intro h
    have h1 := getLast_posixAppend d (name ++ ".h") (by simp [String.data_append])
    rw [h] at h1
    simp [String.data_append] at h1

theorem posix_output_ne_json (sgn : Bool) (dirs : List String)
    (table : List (String × ManifestJson)) (resDir outDir : String) (r : Resource) (p : String) :
    sourcePath (posix sgn dirs table resDir outDir) r ≠ p ++ ".json" ∧
      headerPath (posix sgn dirs table resDir outDir) r ≠ p ++ ".json" :=
  posixAppend_ne_json _ r._name p

/-- **C10, amended.** Let no extension be both `.rc` and `.json` and no output
path be a path that ends in `.json` (both hold for POSIX paths).  When the
manifests below `resource` are nested at most `depth` levels deep, the call of
`ProcessResource` with `depth + 1` units of fuel ends: it returns or stops with
one of the errors of `Error`. -/
theorem C10_terminates_within_depth (E : Env) (files : Files) (depth : Nat)
    (resource : Resource) (isRootResource : Bool)
    (hext : ∀ x : String, E.pathEq x ".rc" = true → E.pathEq x ".json" = false)
    (hout : ∀ (r : Resource) (p : String),
      sourcePath E r ≠ p ++ ".json" ∧ headerPath E r ≠ p ++ ".json")
    (hnest : nestingWithin E files depth resource = true) :
    (ProcessResource E (depth + 1) resource isRootResource files).2.2 ≠ .outOfFuel :=
  ProcessResource_terminates E files hext hout depth resource isRootResource files
    (fun _ => rfl) hnest

/-- The manifest `P` with its two nested manifests is one level deep. -/
theorem C10_terminates_within_depth_witness :
    (ProcessResource nestEnv (1 + 1) nestResourceP true nestFiles).2.2 ≠ .outOfFuel :=
  C10_terminates_within_depth nestEnv nestFiles 1 nestResourceP true
    posixPathEq_rc_not_json
    (posix_output_ne_json true _ _ "/in" "/in")
    (by decide)

end ResourceCompiler
